import Mathlib

/-!
Verification of the agent-orchestration SDK (sliding-window conversation
manager, agent control loop, sub-agent transfer machinery) against its
natural-language specification.  All definitions are shallow embeddings
translated from the TypeScript sources:
  - src/conversation-manager/sliding-window-conversation-manager.ts
  - src/agent/agent.ts
  - src/tools/transfer-to-agent-tool.ts
Machine integers never overflow the ranges used here, so Nat is used
directly.  Fallible code (throwing ContextWindowOverflowError etc.) is
embedded with Option / Except.
-/

/-! ## Data model (types/messages.ts, spec section 3) -/

/-- Status of a tool result block: success or error. -/
inductive BStatus where
  | success
  | error
deriving DecidableEq, Repr

/-- Message role: user or assistant. -/
inductive Role where
  | user
  | assistant
deriving DecidableEq, Repr

/-- Tagged union of content blocks.  Mirrors the TypeScript discriminated
union with tags textBlock, reasoningBlock, cachePointBlock, toolUseBlock and
toolResultBlock.  A tool use carries its correlation id and tool name; a tool
result carries the correlation id, a status and its own content list. -/
inductive ContentBlock where
  | textBlock (text : String)
  | reasoningBlock (text : String)
  | cachePointBlock
  | toolUseBlock (toolUseId : String) (name : String)
  | toolResultBlock (toolUseId : String) (status : BStatus) (content : List ContentBlock)

/-- A message: role, ordered content blocks, optional author tag. -/
structure Message where
  role : Role
  content : List ContentBlock
  author : Option String := none

instance : Inhabited Message := ⟨⟨Role.user, [], none⟩⟩

/-! ## Sliding window conversation manager
(sliding-window-conversation-manager.ts) -/

/-- True exactly on toolResultBlock variants
(the block.type check at line 138 of the manager). -/
def isToolResultBlock : ContentBlock → Bool
  | ContentBlock.toolResultBlock .. => true
  | _ => false

/-- True exactly on toolUseBlock variants
(the block.type check at line 145 of the manager). -/
def isToolUseBlock : ContentBlock → Bool
  | ContentBlock.toolUseBlock .. => true
  | _ => false

/-- Whether a message contains a tool result block
(content.some over toolResultBlock). -/
def hasToolResult (m : Message) : Bool :=
  m.content.any isToolResultBlock

/-- Whether a message contains a tool use block
(content.some over toolUseBlock). -/
def hasToolUse (m : Message) : Bool :=
  m.content.any isToolUseBlock

/-- Backwards scan of findLastMessageWithToolResults: the counter starts at
messages.length and each step inspects index counter - 1. -/
def findLastAux (messages : List Message) : Nat → Option Nat
  | 0 => none
  | i + 1 =>
    if hasToolResult (messages.getD i default) then some i else findLastAux messages i

/-- findLastMessageWithToolResults: index of the last message containing
tool results, or none (manager lines 247-260). -/
def findLastMessageWithToolResults (messages : List Message) : Option Nat :=
  findLastAux messages messages.length

/-- The placeholder text substituted for oversized tool results
(manager line 191). -/
def toolResultTooLargeMessage : String := "The tool result was too large!"

/-- First loop of truncateToolResults (manager lines 195-210): find the first
tool result block; answer some false when it is already truncated (status
error and first content text equal to the placeholder), some true when a
truncation is needed, none when the message holds no tool result block. -/
def truncCheck : List ContentBlock → Option Bool
  | [] => none
  | ContentBlock.toolResultBlock _ status content :: _ =>
    let contentText :=
      match content with
      | ContentBlock.textBlock t :: _ => t
      | _ => ""
    match status with
    | BStatus.error => if contentText == toolResultTooLargeMessage then some false else some true
    | BStatus.success => some true
  | _ :: rest => truncCheck rest

/-- The content map of truncateToolResults (manager lines 217-228): every
tool result block is replaced by an error result holding exactly the
placeholder text; other blocks are kept. -/
def truncateBlock : ContentBlock → ContentBlock
  | ContentBlock.toolResultBlock toolUseId _ _ =>
    ContentBlock.toolResultBlock toolUseId BStatus.error
      [ContentBlock.textBlock toolResultTooLargeMessage]
  | b => b

/-- truncateToolResults (manager lines 181-237).  Returns the changed flag
together with the (possibly updated) message array; the source mutates the
array in place and returns the flag.  The replacement message is rebuilt from
role and content only, exactly as in the source (lines 231-234). -/
def truncateToolResults (messages : List Message) (msgIdx : Nat) : Bool × List Message :=
  if msgIdx ≥ messages.length then (false, messages)
  else
    let message := messages.getD msgIdx default
    match truncCheck message.content with
    | none => (false, messages)
    | some false => (false, messages)
    | some true =>
      let newContent := message.content.map truncateBlock
      (true, messages.set msgIdx { role := message.role, content := newContent })

/-- Candidate cut index of Phase 2 (manager line 128): 2 when the message
count is at most the window size, messages.length - windowSize otherwise. -/
def candidateTrimIndex (windowSize : Nat) (messages : List Message) : Nat :=
  if messages.length ≤ windowSize then 2 else messages.length - windowSize

/-- The nextHasToolResult test of the manager (lines 148-149): the message at
index i + 1 exists and contains a tool result block. -/
def nextHasToolResult (messages : List Message) (i : Nat) : Bool :=
  match messages[i + 1]? with
  | some nextMessage => hasToolResult nextMessage
  | none => false

/-- Forward scan of Phase 2 (manager lines 131-160), fuelled so that the
definition is structural.  At index i below the length: a message holding a
tool result block is skipped; a message holding a tool use block is skipped
unless the next message exists and holds a tool result block; any other
message is a valid cut.  The fuel always suffices because the caller passes
messages.length - i. -/
def findTrimIndexAux (messages : List Message) : Nat → Nat → Nat
  | 0, i => i
  | fuel + 1, i =>
    if i < messages.length then
      if hasToolResult (messages.getD i default) then findTrimIndexAux messages fuel (i + 1)
      else if hasToolUse (messages.getD i default) then
        if nextHasToolResult messages i then i
        else findTrimIndexAux messages fuel (i + 1)
      else i
    else i

/-- The while loop of Phase 2, started at the candidate index. -/
def findTrimIndex (messages : List Message) (i : Nat) : Nat :=
  findTrimIndexAux messages (messages.length - i) i

/-- Phase 2 of reduceContext (manager lines 126-168): search for a valid trim
index from the candidate; none models the thrown ContextWindowOverflowError,
otherwise the first trimIndex messages are removed (splice(0, trimIndex)). -/
def trimMessages (windowSize : Nat) (messages : List Message) : Option (List Message) :=
  let trimIndex := findTrimIndex messages (candidateTrimIndex windowSize messages)
  if trimIndex ≥ messages.length then none else some (messages.drop trimIndex)

/-- reduceContext (manager lines 116-169).  Phase 1: when the history holds a
message with tool results and shouldTruncateResults is set, attempt the
truncation and stop on success.  Phase 2: otherwise trim messages; none
models the thrown ContextWindowOverflowError. -/
def reduceContext (windowSize : Nat) (shouldTruncateResults : Bool)
    (messages : List Message) : Option (List Message) :=
  let truncated : Option (List Message) :=
    match findLastMessageWithToolResults messages, shouldTruncateResults with
    | some idx, true =>
      let r := truncateToolResults messages idx
      if r.1 then some r.2 else none
    | _, _ => none
  match truncated with
  | some newMessages => some newMessages
  | none => trimMessages windowSize messages

/-- applyManagement (manager lines 90-96): a no-op while the message count is
within the window, reduceContext otherwise. -/
def applyManagement (windowSize : Nat) (shouldTruncateResults : Bool)
    (messages : List Message) : Option (List Message) :=
  if messages.length ≤ windowSize then some messages
  else reduceContext windowSize shouldTruncateResults messages

/-! ## Pairing well-formedness (spec sections 3 and 8) -/

/-- Correlation ids of the tool use blocks of a block list. -/
def useIdsOf (content : List ContentBlock) : List String :=
  content.filterMap fun b =>
    match b with
    | ContentBlock.toolUseBlock toolUseId _ => some toolUseId
    | _ => none

/-- Correlation ids of the tool result blocks of a block list. -/
def resultIdsOf (content : List ContentBlock) : List String :=
  content.filterMap fun b =>
    match b with
    | ContentBlock.toolResultBlock toolUseId _ _ => some toolUseId
    | _ => none

/-- Left to right scan of one message: every tool result block must be
preceded, within the message, by a tool use block with the same correlation
id (the seen accumulator). -/
def blocksOk : List String → List ContentBlock → Bool
  | _, [] => true
  | seen, ContentBlock.toolUseBlock toolUseId _ :: rest => blocksOk (toolUseId :: seen) rest
  | seen, ContentBlock.toolResultBlock toolUseId _ _ :: rest =>
    seen.contains toolUseId && blocksOk seen rest
  | seen, _ :: rest => blocksOk seen rest

/-- The history does not start with an unpaired tool result: every tool
result block of the first message has a preceding tool use block with the
same correlation id inside that message. -/
def startsOk : List Message → Bool
  | [] => true
  | m :: _ => blocksOk [] m.content

/-- No dangling tool use: every tool use id of every message is answered by a
tool result block with the same correlation id in a later message. -/
def noDangling : List Message → Bool
  | [] => true
  | m :: rest =>
    ((useIdsOf m.content).all fun u =>
      rest.any fun m2 => (resultIdsOf m2.content).contains u) &&
    noDangling rest

/-- The pairing invariant of the spec: the history neither starts with an
unpaired tool result nor leaves a tool use without a following tool result
message. -/
def pairingOk (messages : List Message) : Bool :=
  startsOk messages && noDangling messages

/-! ## Helper lemmas about the well-formedness predicates -/

theorem noDangling_tail {m : Message} {rest : List Message}
    (h : noDangling (m :: rest) = true) : noDangling rest = true := by
  simp only [noDangling, Bool.and_eq_true] at h
  exact h.2

theorem noDangling_drop (k : Nat) (ms : List Message)
    (h : noDangling ms = true) : noDangling (ms.drop k) = true := by
  induction k generalizing ms with
  | zero => simpa using h
  | succ k ih =>
    cases ms with
    | nil => simpa using h
    | cons m rest => exact ih rest (noDangling_tail h)

theorem useIdsOf_map_truncateBlock (content : List ContentBlock) :
    useIdsOf (content.map truncateBlock) = useIdsOf content := by
  induction content with
  | nil => rfl
  | cons b rest ih =>
    cases b <;> simp [useIdsOf, truncateBlock, List.filterMap_cons] at ih ⊢ <;>
      simpa [useIdsOf] using ih

theorem resultIdsOf_map_truncateBlock (content : List ContentBlock) :
    resultIdsOf (content.map truncateBlock) = resultIdsOf content := by
  induction content with
  | nil => rfl
  | cons b rest ih =>
    cases b <;> simp [resultIdsOf, truncateBlock, List.filterMap_cons] at ih ⊢ <;>
      simpa [resultIdsOf] using ih

theorem blocksOk_map_truncateBlock (content : List ContentBlock) :
    ∀ seen, blocksOk seen (content.map truncateBlock) = blocksOk seen content := by
  induction content with
  | nil => intro seen; rfl
  | cons b rest ih =>
    intro seen
    cases b <;> simp [truncateBlock, blocksOk, ih]

theorem any_set_congr {α : Type} [Inhabited α] (f : α → Bool) :
    ∀ (t : List α) (j : Nat) (a : α), f a = f (t.getD j default) →
      (t.set j a).any f = t.any f := by
  intro t
  induction t with
  | nil => intro j a _; rfl
  | cons h r ih =>
    intro j a hf
    cases j with
    | zero =>
      simp only [List.getD, List.get?, Option.getD] at hf
      simp [List.set, List.any_cons, hf]
    | succ j =>
      have hf2 : f a = f (r.getD j default) := hf
      simp [List.set, List.any_cons, ih j a hf2]

theorem noDangling_set (ms : List Message) :
    ∀ (i : Nat) (m2 : Message),
      useIdsOf m2.content = useIdsOf ((ms.getD i default).content) →
      resultIdsOf m2.content = resultIdsOf ((ms.getD i default).content) →
      noDangling ms = true → noDangling (ms.set i m2) = true := by
  induction ms with
  | nil => intro i m2 _ _ h; simpa using h
  | cons h t ih =>
    intro i m2 hu hr hnd
    have hhead : ((useIdsOf h.content).all fun u =>
        t.any fun mm => (resultIdsOf mm.content).contains u) = true := by
      simp only [noDangling, Bool.and_eq_true] at hnd
      exact hnd.1
    have htail : noDangling t = true := noDangling_tail hnd
    cases i with
    | zero =>
      have hu0 : useIdsOf m2.content = useIdsOf h.content := hu
      simp only [List.set, noDangling, Bool.and_eq_true]
      exact ⟨by rw [hu0]; exact hhead, htail⟩
    | succ j =>
      have hu2 : useIdsOf m2.content = useIdsOf ((t.getD j default).content) := hu
      have hr2 : resultIdsOf m2.content = resultIdsOf ((t.getD j default).content) := hr
      simp only [List.set, noDangling, Bool.and_eq_true]
      constructor
      · have : ∀ u, ((t.set j m2).any fun mm => (resultIdsOf mm.content).contains u) =
            (t.any fun mm => (resultIdsOf mm.content).contains u) := by
          intro u
          exact any_set_congr _ t j m2 (by rw [hr2])
        simp only [List.all_eq_true] at hhead ⊢
        intro u hu3
        rw [this u]
        exact hhead u hu3
      · exact ih j m2 hu2 hr2 htail

theorem blocksOk_of_no_toolResult (content : List ContentBlock)
    (h : ∀ b ∈ content, isToolResultBlock b = false) :
    ∀ seen, blocksOk seen content = true := by
  induction content with
  | nil => intro seen; rfl
  | cons b rest ih =>
    intro seen
    have hb : isToolResultBlock b = false := h b (List.mem_cons_self b rest)
    have hrest : ∀ b2 ∈ rest, isToolResultBlock b2 = false := by
      intro b2 hb2
      exact h b2 (List.mem_cons_of_mem b hb2)
    cases b with
    | toolResultBlock toolUseId status c => simp [isToolResultBlock] at hb
    | textBlock t => simpa [blocksOk] using ih hrest seen
    | reasoningBlock t => simpa [blocksOk] using ih hrest seen
    | cachePointBlock => simpa [blocksOk] using ih hrest seen
    | toolUseBlock toolUseId name => simpa [blocksOk] using ih hrest (toolUseId :: seen)

theorem drop_eq_getD_cons (ms : List Message) :
    ∀ t, t < ms.length → ms.drop t = ms.getD t default :: ms.drop (t + 1) := by
  induction ms with
  | nil => intro t ht; simp at ht
  | cons h r ih =>
    intro t ht
    cases t with
    | zero => rfl
    | succ j =>
      have hj : j < r.length := by simpa using ht
      simpa [List.drop] using ih j hj

theorem findLastAux_lt (messages : List Message) :
    ∀ n i, findLastAux messages n = some i → i < n := by
  intro n
  induction n with
  | zero => intro i h; simp [findLastAux] at h
  | succ n ih =>
    intro i h
    rw [findLastAux] at h
    split at h
    · cases h
      omega
    · exact Nat.lt_succ_of_lt (ih i h)

theorem findLast_lt_length (messages : List Message) (i : Nat)
    (h : findLastMessageWithToolResults messages = some i) : i < messages.length :=
  findLastAux_lt messages messages.length i h

theorem truncateToolResults_true_inv (messages : List Message) (msgIdx : Nat)
    (ms2 : List Message)
    (h : truncateToolResults messages msgIdx = (true, ms2)) :
    msgIdx < messages.length ∧
    truncCheck ((messages.getD msgIdx default).content) = some true ∧
    ms2 = messages.set msgIdx
      { role := (messages.getD msgIdx default).role,
        content := (messages.getD msgIdx default).content.map truncateBlock } := by
  by_cases hlen : msgIdx ≥ messages.length
  · simp [truncateToolResults, hlen] at h
  · have hlt : msgIdx < messages.length := by omega
    unfold truncateToolResults at h
    rw [if_neg hlen] at h
    dsimp only at h
    split at h
    · exact absurd h (by simp)
    · exact absurd h (by simp)
    · rename_i heq
      have hms2 := (Prod.mk.injEq _ _ _ _).mp h |>.2
      exact ⟨hlt, heq, hms2.symm⟩

/-- Valid new start per the trimming rules actually implemented: the message
at the index holds no tool result block, and when it holds a tool use block
the next message exists and holds a tool result block. -/
def validStartB (messages : List Message) (i : Nat) : Bool :=
  !hasToolResult (messages.getD i default) &&
    (!hasToolUse (messages.getD i default) || nextHasToolResult messages i)

theorem findTrimIndexAux_ge (messages : List Message) :
    ∀ fuel i, i ≤ findTrimIndexAux messages fuel i := by
  intro fuel
  induction fuel with
  | zero => intro i; exact Nat.le_refl i
  | succ fuel ih =>
    intro i
    rw [findTrimIndexAux]
    split
    · split
      · exact Nat.le_trans (Nat.le_succ i) (ih (i + 1))
      · split
        · split
          · exact Nat.le_refl i
          · exact Nat.le_trans (Nat.le_succ i) (ih (i + 1))
        · exact Nat.le_refl i
    · exact Nat.le_refl i

theorem findTrimIndexAux_valid (messages : List Message) :
    ∀ fuel i, messages.length ≤ i + fuel →
      findTrimIndexAux messages fuel i < messages.length →
      validStartB messages (findTrimIndexAux messages fuel i) = true := by
  intro fuel
  induction fuel with
  | zero =>
    intro i hfu hlt
    rw [findTrimIndexAux] at hlt
    omega
  | succ fuel ih =>
    intro i hfu hlt
    rw [findTrimIndexAux] at hlt ⊢
    by_cases hilen : i < messages.length
    · rw [if_pos hilen] at hlt ⊢
      by_cases htr : hasToolResult (messages.getD i default) = true
      · rw [if_pos htr] at hlt ⊢
        exact ih (i + 1) (by omega) hlt
      · have htrF : hasToolResult (messages.getD i default) = false := by simpa using htr
        rw [if_neg htr] at hlt ⊢
        by_cases htu : hasToolUse (messages.getD i default) = true
        · rw [if_pos htu] at hlt ⊢
          by_cases hnn : nextHasToolResult messages i = true
          · rw [if_pos hnn] at hlt ⊢
            unfold validStartB
            rw [htrF, htu, hnn]
            rfl
          · rw [if_neg hnn] at hlt ⊢
            exact ih (i + 1) (by omega) hlt
        · have htuF : hasToolUse (messages.getD i default) = false := by simpa using htu
          rw [if_neg htu] at hlt ⊢
          unfold validStartB
          rw [htrF, htuF]
          rfl
    · rw [if_neg hilen] at hlt
      omega

theorem findTrimIndexAux_min (messages : List Message) :
    ∀ fuel i j, i ≤ j → j < findTrimIndexAux messages fuel i →
      validStartB messages j = false := by
  intro fuel
  induction fuel with
  | zero =>
    intro i j hij hj
    rw [findTrimIndexAux] at hj
    omega
  | succ fuel ih =>
    intro i j hij hj
    rw [findTrimIndexAux] at hj
    by_cases hilen : i < messages.length
    · rw [if_pos hilen] at hj
      by_cases htr : hasToolResult (messages.getD i default) = true
      · rw [if_pos htr] at hj
        rcases Nat.eq_or_lt_of_le hij with heq | hlt2
        · subst heq
          unfold validStartB
          rw [htr]
          rfl
        · exact ih (i + 1) j hlt2 hj
      · have htrF : hasToolResult (messages.getD i default) = false := by simpa using htr
        rw [if_neg htr] at hj
        by_cases htu : hasToolUse (messages.getD i default) = true
        · rw [if_pos htu] at hj
          by_cases hnn : nextHasToolResult messages i = true
          · rw [if_pos hnn] at hj
            omega
          · have hnnF : nextHasToolResult messages i = false := by simpa using hnn
            rw [if_neg hnn] at hj
            rcases Nat.eq_or_lt_of_le hij with heq | hlt2
            · subst heq
              unfold validStartB
              rw [htrF, htu, hnnF]
              rfl
            · exact ih (i + 1) j hlt2 hj
        · rw [if_neg htu] at hj
          omega
    · rw [if_neg hilen] at hj
      omega

theorem findTrimIndex_ge (messages : List Message) (i : Nat) :
    i ≤ findTrimIndex messages i :=
  findTrimIndexAux_ge messages (messages.length - i) i

theorem findTrimIndex_valid (messages : List Message) (i : Nat)
    (h : findTrimIndex messages i < messages.length) :
    validStartB messages (findTrimIndex messages i) = true :=
  findTrimIndexAux_valid messages (messages.length - i) i (by omega) h

theorem findTrimIndex_min (messages : List Message) (i j : Nat)
    (hij : i ≤ j) (hj : j < findTrimIndex messages i) :
    validStartB messages j = false :=
  findTrimIndexAux_min messages (messages.length - i) i j hij hj

theorem hasToolResult_false_mem {m : Message} (h : hasToolResult m = false) :
    ∀ b ∈ m.content, isToolResultBlock b = false := by
  intro b hb
  by_contra hcontra
  have hbt : isToolResultBlock b = true := by simpa using hcontra
  have : hasToolResult m = true := by
    unfold hasToolResult
    exact List.any_eq_true.mpr ⟨b, hb, hbt⟩
  rw [this] at h
  cases h

theorem trimMessages_pairingOk (ws : Nat) (ms ms2 : List Message)
    (hwf : pairingOk ms = true) (h : trimMessages ws ms = some ms2) :
    pairingOk ms2 = true := by
  have hnd : noDangling ms = true := by
    simp only [pairingOk, Bool.and_eq_true] at hwf
    exact hwf.2
  unfold trimMessages at h
  by_cases hge : findTrimIndex ms (candidateTrimIndex ws ms) ≥ ms.length
  · rw [if_pos hge] at h
    exact absurd h (by simp)
  · rw [if_neg hge] at h
    have hlt : findTrimIndex ms (candidateTrimIndex ws ms) < ms.length := by omega
    have hvalid := findTrimIndex_valid ms (candidateTrimIndex ws ms) hlt
    have hms2 : ms.drop (findTrimIndex ms (candidateTrimIndex ws ms)) = ms2 := by
      injection h
    subst hms2
    have htrF : hasToolResult
        (ms.getD (findTrimIndex ms (candidateTrimIndex ws ms)) default) = false := by
      unfold validStartB at hvalid
      rcases Bool.and_eq_true _ _ |>.mp hvalid with ⟨h1, _⟩
      simpa using h1
    apply Bool.and_eq_true _ _ |>.mpr
    constructor
    · rw [drop_eq_getD_cons ms (findTrimIndex ms (candidateTrimIndex ws ms)) hlt]
      unfold startsOk
      exact blocksOk_of_no_toolResult _ (hasToolResult_false_mem htrF) []
    · exact noDangling_drop _ ms hnd

/-- C1 (amended): for every history satisfying the pairing invariant, a
successful run of reduceContext preserves it — the result does not start
with an unpaired tool result and leaves no tool use without a following
tool result message. -/
theorem reduceContext_preserves_pairing (ws : Nat) (str : Bool) (ms ms2 : List Message)
    (hwf : pairingOk ms = true) (h : reduceContext ws str ms = some ms2) :
    pairingOk ms2 = true := by
  have hso : startsOk ms = true := by
    simp only [pairingOk, Bool.and_eq_true] at hwf
    exact hwf.1
  have hnd : noDangling ms = true := by
    simp only [pairingOk, Bool.and_eq_true] at hwf
    exact hwf.2
  unfold reduceContext at h
  rcases hfl : findLastMessageWithToolResults ms with _ | idx
  · rw [hfl] at h
    dsimp only at h
    exact trimMessages_pairingOk ws ms ms2 hwf h
  · rw [hfl] at h
    cases str with
    | false =>
      dsimp only at h
      exact trimMessages_pairingOk ws ms ms2 hwf h
    | true =>
      dsimp only at h
      rcases hr : truncateToolResults ms idx with ⟨flag, msT⟩
      rw [hr] at h
      cases flag with
      | false =>
        dsimp only at h
        exact trimMessages_pairingOk ws ms ms2 hwf h
      | true =>
        dsimp only at h
        have hms2 : msT = ms2 := by injection h
        subst hms2
        obtain ⟨hltIdx, _, hset⟩ := truncateToolResults_true_inv ms idx msT hr
        subst hset
        apply Bool.and_eq_true _ _ |>.mpr
        constructor
        · cases ms with
          | nil => simp at hltIdx
          | cons hd tl =>
            cases idx with
            | zero =>
              unfold startsOk
              show blocksOk [] (((hd :: tl).getD 0 default).content.map truncateBlock) = true
              rw [blocksOk_map_truncateBlock]
              exact hso
            | succ j =>
              unfold startsOk at hso ⊢
              exact hso
        · apply noDangling_set
          · rw [useIdsOf_map_truncateBlock]
          · rw [resultIdsOf_map_truncateBlock]
          · exact hnd

/-- History consisting of a single oversized tool-result-only message. -/
def cexToolResultMsg : Message :=
  { role := Role.user,
    content := [ContentBlock.toolResultBlock "t1" BStatus.success
      [ContentBlock.textBlock "big"]] }

/-- The same message after Phase 1 truncation. -/
def cexTruncatedMsg : Message :=
  { role := Role.user,
    content := [ContentBlock.toolResultBlock "t1" BStatus.error
      [ContentBlock.textBlock toolResultTooLargeMessage]] }

/-- C1 counterexample: on a history made of a single tool-result-only message
reduceContext succeeds through Phase 1 truncation, yet the produced history
still starts with an unpaired tool result, refuting the claim for arbitrary
inputs of reduceContext. -/
theorem reduceContext_pairing_counterexample :
    reduceContext 0 true [cexToolResultMsg] = some [cexTruncatedMsg] ∧
    pairingOk [cexTruncatedMsg] = false :=
  ⟨rfl, rfl⟩

/-- Plain text message used in concrete runs. -/
def witText1 : Message := { role := Role.user, content := [ContentBlock.textBlock "m1"] }

/-- Plain text message used in concrete runs. -/
def witText2 : Message := { role := Role.assistant, content := [ContentBlock.textBlock "m2"] }

/-- Plain text message used in concrete runs. -/
def witText3 : Message := { role := Role.user, content := [ContentBlock.textBlock "m3"] }

/-- Witness for C1: the preservation theorem applied to a concrete
well-formed three-message history reduced with window size 2. -/
theorem reduceContext_preserves_pairing_witness :
    pairingOk [witText2, witText3] = true :=
  reduceContext_preserves_pairing 2 false [witText1, witText2, witText3]
    [witText2, witText3] rfl rfl

/-- Modelled from the spec: the valid-start test exactly as claim C2 words
it — the message must not contain a tool-result block, and every tool-use
block it contains must have its paired result (tool result with the same
correlation id) in the very next message. -/
def validStartPairedB (messages : List Message) (i : Nat) : Bool :=
  !hasToolResult (messages.getD i default) &&
    ((useIdsOf (messages.getD i default).content).all fun u =>
      match messages[i + 1]? with
      | some nextMessage => (resultIdsOf nextMessage.content).contains u
      | none => false)

/-- Modelled from the spec: the forward scan as claim C2 words it, advancing
past every index that fails the paired valid-start test. -/
def findTrimIndexPairedAux (messages : List Message) : Nat → Nat → Nat
  | 0, i => i
  | fuel + 1, i =>
    if i < messages.length then
      if validStartPairedB messages i then i
      else findTrimIndexPairedAux messages fuel (i + 1)
    else i

/-- Modelled from the spec: Phase 2 exactly as claim C2 states it, with the
paired valid-start condition. -/
def trimMessagesPaired (windowSize : Nat) (messages : List Message) : Option (List Message) :=
  let trimIndex := findTrimIndexPairedAux messages
    (messages.length - candidateTrimIndex windowSize messages)
    (candidateTrimIndex windowSize messages)
  if trimIndex ≥ messages.length then none else some (messages.drop trimIndex)

/-- Plain text message used in the C2 counterexample. -/
def cexTextMsg : Message := { role := Role.user, content := [ContentBlock.textBlock "hello"] }

/-- Assistant message holding a tool use with correlation id idA. -/
def cexToolUseMsgA : Message :=
  { role := Role.assistant, content := [ContentBlock.toolUseBlock "idA" "toolA"] }

/-- User message holding a tool result paired to the different id idB. -/
def cexToolResultMsgB : Message :=
  { role := Role.user,
    content := [ContentBlock.toolResultBlock "idB" BStatus.success
      [ContentBlock.textBlock "r"]] }

/-- C2 counterexample: the implementation cuts at the tool-use message merely
because the next message contains some tool-result block, although that
result is paired to a different correlation id; the scan the claim describes
would find no valid start there and fail with a context overflow. -/
theorem trimMessages_paired_counterexample :
    reduceContext 2 false [cexTextMsg, cexToolUseMsgA, cexToolResultMsgB] =
      some [cexToolUseMsgA, cexToolResultMsgB] ∧
    trimMessagesPaired 2 [cexTextMsg, cexToolUseMsgA, cexToolResultMsgB] = none :=
  ⟨rfl, rfl⟩

/-- C2 (amended): when Phase 2 runs, the candidate cut index equals
messages.length - windowSize when messages.length exceeds windowSize and 2
otherwise; the reducer scans forward only, advancing past every message that
contains a tool-result block and every message that contains a tool-use
block not immediately followed by a message containing a tool-result block;
when the scan reaches the end of the array it raises a context overflow, and
otherwise it removes exactly the messages before the found cut index,
leaving the later messages unchanged. -/
theorem trimMessages_characterization (ws : Nat) (ms : List Message) :
    (candidateTrimIndex ws ms = if ws < ms.length then ms.length - ws else 2) ∧
    (∀ r, trimMessages ws ms = some r →
      ∃ t, candidateTrimIndex ws ms ≤ t ∧ t < ms.length ∧ validStartB ms t = true ∧
        (∀ j, candidateTrimIndex ws ms ≤ j → j < t → validStartB ms j = false) ∧
        r = ms.drop t) ∧
    (trimMessages ws ms = none →
      ∀ j, candidateTrimIndex ws ms ≤ j → j < ms.length → validStartB ms j = false) := by
  refine ⟨?_, ?_, ?_⟩
  · unfold candidateTrimIndex
    rcases Nat.lt_or_ge ws ms.length with hlt | hge
    · rw [if_neg (by omega), if_pos hlt]
    · rw [if_pos (by omega), if_neg (by omega)]
  · intro r h
    unfold trimMessages at h
    by_cases hge : findTrimIndex ms (candidateTrimIndex ws ms) ≥ ms.length
    · rw [if_pos hge] at h
      exact absurd h (by simp)
    · rw [if_neg hge] at h
      have hlt : findTrimIndex ms (candidateTrimIndex ws ms) < ms.length := by omega
      refine ⟨findTrimIndex ms (candidateTrimIndex ws ms),
        findTrimIndex_ge ms (candidateTrimIndex ws ms), hlt,
        findTrimIndex_valid ms (candidateTrimIndex ws ms) hlt, ?_, ?_⟩
      · intro j hj1 hj2
        exact findTrimIndex_min ms (candidateTrimIndex ws ms) j hj1 hj2
      · injection h with h
        exact h.symm
  · intro h j hj1 hj2
    unfold trimMessages at h
    by_cases hge : findTrimIndex ms (candidateTrimIndex ws ms) ≥ ms.length
    · exact findTrimIndex_min ms (candidateTrimIndex ws ms) j hj1 (by omega)
    · rw [if_neg hge] at h
      exact absurd h (by simp)

/-- Witness for C2: the characterization applied to a concrete history of
three tool-result messages with window size 2, where no valid cut exists. -/
theorem trimMessages_characterization_witness :
    validStartB [cexToolResultMsg, cexToolResultMsg, cexToolResultMsg] 1 = false :=
  (trimMessages_characterization 2
      [cexToolResultMsg, cexToolResultMsg, cexToolResultMsg]).2.2
    rfl 1 (by decide) (by decide)

/-- C4 counterexample: with the default shouldTruncateResults=true and a
non-placeholder tool-result-only history, reduction does not raise a context
overflow — Phase 1 truncates the result and succeeds. -/
theorem reduceContext_windowZero_counterexample :
    (reduceContext 0 true [cexToolResultMsg]).isSome = true :=
  rfl

/-- C4 (amended): with windowSize 0, shouldTruncateResults false and a
history consisting of a single tool-result message, triggering reduction
raises the context overflow error (Phase 1 is disabled by configuration and
no valid cut point exists). -/
theorem reduceContext_windowZero_overflow (m : Message)
    (_h : hasToolResult m = true) : reduceContext 0 false [m] = none := by
  have htrim : trimMessages 0 [m] = none := rfl
  unfold reduceContext
  rcases hfl : findLastMessageWithToolResults [m] with _ | idx <;>
    dsimp only <;> exact htrim

/-- Witness for C4: the amended overflow theorem applied to the concrete
single tool-result history. -/
theorem reduceContext_windowZero_overflow_witness :
    reduceContext 0 false [cexToolResultMsg] = none :=
  reduceContext_windowZero_overflow cexToolResultMsg rfl

/-! ## C7: truncation of already truncated results -/

theorem getD_set_self {α : Type} [Inhabited α] :
    ∀ (l : List α) (i : Nat) (a : α), i < l.length →
      (l.set i a).getD i default = a := by
  intro l
  induction l with
  | nil => intro i a h; simp at h
  | cons hd tl ih =>
    intro i a h
    cases i with
    | zero => rfl
    | succ j => exact ih j a (by simpa using h)

theorem truncCheck_all_placeholder :
    ∀ c : List ContentBlock,
      (∃ b ∈ c, isToolResultBlock b = true) →
      (∀ b ∈ c, isToolResultBlock b = true →
        ∃ u, b = ContentBlock.toolResultBlock u BStatus.error
          [ContentBlock.textBlock toolResultTooLargeMessage]) →
      truncCheck c = some false := by
  intro c
  induction c with
  | nil => intro hex _; simp at hex
  | cons b rest ih =>
    intro hex hall
    cases b with
    | toolResultBlock u st cc =>
      obtain ⟨u2, hu2⟩ := hall _ (List.mem_cons_self _ _) rfl
      cases hu2
      rfl
    | textBlock t =>
      have hex2 : ∃ b ∈ rest, isToolResultBlock b = true := by
        rcases hex with ⟨b2, hb2, hbt⟩
        rcases List.mem_cons.mp hb2 with heq | hmem
        · subst heq; simp [isToolResultBlock] at hbt
        · exact ⟨b2, hmem, hbt⟩
      exact ih hex2 (fun b2 hb2 hbt => hall b2 (List.mem_cons_of_mem _ hb2) hbt)
    | reasoningBlock t =>
      have hex2 : ∃ b ∈ rest, isToolResultBlock b = true := by
        rcases hex with ⟨b2, hb2, hbt⟩
        rcases List.mem_cons.mp hb2 with heq | hmem
        · subst heq; simp [isToolResultBlock] at hbt
        · exact ⟨b2, hmem, hbt⟩
      exact ih hex2 (fun b2 hb2 hbt => hall b2 (List.mem_cons_of_mem _ hb2) hbt)
    | cachePointBlock =>
      have hex2 : ∃ b ∈ rest, isToolResultBlock b = true := by
        rcases hex with ⟨b2, hb2, hbt⟩
        rcases List.mem_cons.mp hb2 with heq | hmem
        · subst heq; simp [isToolResultBlock] at hbt
        · exact ⟨b2, hmem, hbt⟩
      exact ih hex2 (fun b2 hb2 hbt => hall b2 (List.mem_cons_of_mem _ hb2) hbt)
    | toolUseBlock u n =>
      have hex2 : ∃ b ∈ rest, isToolResultBlock b = true := by
        rcases hex with ⟨b2, hb2, hbt⟩
        rcases List.mem_cons.mp hb2 with heq | hmem
        · subst heq; simp [isToolResultBlock] at hbt
        · exact ⟨b2, hmem, hbt⟩
      exact ih hex2 (fun b2 hb2 hbt => hall b2 (List.mem_cons_of_mem _ hb2) hbt)

theorem truncCheck_map_truncateBlock :
    ∀ c : List ContentBlock, truncCheck c = some true →
      truncCheck (c.map truncateBlock) = some false := by
  intro c
  induction c with
  | nil => intro h; simp [truncCheck] at h
  | cons b rest ih =>
    intro h
    cases b with
    | toolResultBlock u st cc => rfl
    | textBlock t => exact ih h
    | reasoningBlock t => exact ih h
    | cachePointBlock => exact ih h
    | toolUseBlock u n => exact ih h

/-- C7: running tool-result truncation on a message whose tool results are
already the placeholder error is a no-op that reports no change; in
particular truncation is idempotent — a second run on the output of a
successful truncation changes nothing and returns false. -/
theorem truncateToolResults_already_truncated (ms : List Message) (idx : Nat) :
    ((∃ b ∈ (ms.getD idx default).content, isToolResultBlock b = true) →
      (∀ b ∈ (ms.getD idx default).content, isToolResultBlock b = true →
        ∃ u, b = ContentBlock.toolResultBlock u BStatus.error
          [ContentBlock.textBlock toolResultTooLargeMessage]) →
      truncateToolResults ms idx = (false, ms)) ∧
    (∀ ms2, truncateToolResults ms idx = (true, ms2) →
      truncateToolResults ms2 idx = (false, ms2)) := by
  constructor
  · intro hex hall
    by_cases hlen : idx ≥ ms.length
    · unfold truncateToolResults
      rw [if_pos hlen]
    · unfold truncateToolResults
      rw [if_neg hlen]
      dsimp only
      rw [truncCheck_all_placeholder _ hex hall]
  · intro ms2 h
    obtain ⟨hlt, hchk, hset⟩ := truncateToolResults_true_inv ms idx ms2 h
    have hlen2 : idx < ms2.length := by
      rw [hset]
      simpa using hlt
    have hget : ms2.getD idx default =
        { role := (ms.getD idx default).role,
          content := (ms.getD idx default).content.map truncateBlock } := by
      rw [hset]
      exact getD_set_self ms idx _ hlt
    unfold truncateToolResults
    rw [if_neg (by omega)]
    dsimp only
    rw [hget]
    dsimp only
    rw [truncCheck_map_truncateBlock _ hchk]

/-- Witness for C7: both parts applied to the concrete truncated history —
the direct no-op on an already truncated message, and idempotence after a
successful truncation of the oversized message. -/
theorem truncateToolResults_already_truncated_witness :
    truncateToolResults [witText1, cexTruncatedMsg] 1 = (false, [witText1, cexTruncatedMsg]) ∧
    truncateToolResults [cexTruncatedMsg] 0 = (false, [cexTruncatedMsg]) := by
  constructor
  · exact (truncateToolResults_already_truncated [witText1, cexTruncatedMsg] 1).1
      (by exact ⟨_, List.mem_cons_self _ _, rfl⟩)
      (by
        intro b hb hbt
        rcases List.mem_cons.mp hb with heq | hmem
        · exact ⟨"t1", by rw [heq]⟩
        · simp at hmem)
  · exact (truncateToolResults_already_truncated [cexToolResultMsg] 0).2
      [cexTruncatedMsg] rfl

/-! ## Agent control loop (agent.ts): model call retry on overflow -/

/-- Stop reasons of an aggregated model call. -/
inductive StopReason where
  | endTurn
  | toolUse
  | maxTokens

/-- Errors surfaced by a model call.  The conversation manager recognizes a
context window overflow by its kind (the instanceof test at manager
line 74); every other error kind is opaque to it. -/
inductive ModelError where
  | contextWindowOverflow (message : String)
  | generic (message : String)

/-- One scripted model response: the aggregated stop data of a successful
stream, or the error the stream threw. -/
abbrev ModelResponse := Except ModelError (Message × StopReason)

/-- Modelled from the spec: the mutable part of an AfterModelCallEvent seen
by hook callbacks — the agent message array and the retry flag.  The event
classes (hooks/events.ts) and the registry (hooks/registry.ts) are not among
the available sources; per spec section 4.2 a callback may mutate these
fields and the dispatcher hands the mutated event back to the loop. -/
abbrev AfterModelCallState := List Message × Bool

/-- Modelled from the spec: an AfterModelCallEvent callback — it receives
the immutable error field and the mutable state, and may throw. -/
abbrev EventCallback := Option ModelError → AfterModelCallState →
  Except ModelError AfterModelCallState

/-- Modelled from the spec: invokeCallbacks dispatch — every registered
callback runs in registration order, later callbacks observing the
mutations of earlier ones; a throwing callback aborts the dispatch and the
error surfaces at the dispatch site. -/
def runCallbacks : List EventCallback → Option ModelError → AfterModelCallState →
    Except ModelError AfterModelCallState
  | [], _, st => Except.ok st
  | cb :: rest, error?, st =>
    match cb error? st with
    | Except.error e => Except.error e
    | Except.ok st2 => runCallbacks rest error? st2

/-- The AfterModelCallEvent callback registered by the sliding window
manager (manager lines 73-78): when the event carries a context window
overflow error it runs reduceContext on the agent messages and sets the
retry flag; a reduceContext failure throws its own overflow error out of
the dispatch. -/
def afterModelCallCallback (windowSize : Nat) (shouldTruncateResults : Bool) :
    EventCallback := fun error? st =>
  match error? with
  | some (ModelError.contextWindowOverflow _) =>
    match reduceContext windowSize shouldTruncateResults st.1 with
    | some ms2 => Except.ok (ms2, true)
    | none => Except.error
        (ModelError.contextWindowOverflow "Unable to trim conversation context!")
  | _ => Except.ok st

/-- invokeModel (agent.ts lines 469-510), projected onto explicit state.
Each call appends the normalized input messages (the source recursion
passes the same args value again), consumes the next scripted model
response, dispatches the AfterModelCallEvent (yielded by invokeModel and
run through invokeCallbacks by _streamFromEntry before control returns),
and only then reads the retry flag: on retry it recurses with the same
args, otherwise it returns the stop data or rethrows the original error.
The fuel bounds the unbounded source recursion; none means fuel ran out. -/
def invokeModel (cbs : List EventCallback) :
    Nat → List Message → List Message → List ModelResponse →
    Option (Except ModelError ((Message × StopReason) × List Message × List ModelResponse))
  | 0, _, _, _ => none
  | fuel + 1, argMessages, messages, responses =>
    let messages2 := messages ++ argMessages
    match responses with
    | [] => some (Except.error (ModelError.generic "model stream unavailable"))
    | resp :: rest =>
      match resp with
      | Except.ok stopData =>
        match runCallbacks cbs none (messages2, false) with
        | Except.error e => some (Except.error e)
        | Except.ok (messages3, retry) =>
          if retry then invokeModel cbs fuel argMessages messages3 rest
          else some (Except.ok (stopData, messages3, rest))
      | Except.error e =>
        match runCallbacks cbs (some e) (messages2, false) with
        | Except.error e2 => some (Except.error e2)
        | Except.ok (messages3, retry) =>
          if retry then invokeModel cbs fuel argMessages messages3 rest
          else some (Except.error e)

/-- C3: on a model call error identified as context window overflow the
manager callback reduces the history and sets the retry flag on the
dispatched after-model-call event, and the loop — which reads the flag only
after the whole callback list has run — re-issues the model call with no
new caller input instead of rethrowing: with a scripted overflow followed
by a success the outcome is that success, both responses are consumed, and
no error reaches the caller. -/
theorem overflow_retries_model_call (ws : Nat) (str : Bool)
    (ms ms2 args : List Message) (emsg : String) (stopData : Message × StopReason)
    (hred : reduceContext ws str (ms ++ args) = some ms2) :
    afterModelCallCallback ws str (some (ModelError.contextWindowOverflow emsg))
      (ms ++ args, false) = Except.ok (ms2, true) ∧
    invokeModel [afterModelCallCallback ws str] 2 args ms
      [Except.error (ModelError.contextWindowOverflow emsg), Except.ok stopData] =
      some (Except.ok (stopData, ms2 ++ args, [])) := by
  have hcb : afterModelCallCallback ws str
      (some (ModelError.contextWindowOverflow emsg)) (ms ++ args, false) =
      Except.ok (ms2, true) := by
    unfold afterModelCallCallback
    dsimp only
    rw [hred]
  refine ⟨hcb, ?_⟩
  unfold invokeModel
  dsimp only
  rw [show runCallbacks [afterModelCallCallback ws str]
      (some (ModelError.contextWindowOverflow emsg)) (ms ++ args, false) =
      Except.ok (ms2, true) from by unfold runCallbacks; rw [hcb]; rfl]
  rfl

/-- Witness for C3: the retry theorem applied to a concrete three message
history that overflows once, reduces to its last two messages, and then
succeeds on the retried model call. -/
theorem overflow_retries_model_call_witness :
    invokeModel [afterModelCallCallback 2 false] 2 [] [witText1, witText2, witText3]
      [Except.error (ModelError.contextWindowOverflow "overflow"),
        Except.ok (witText1, StopReason.endTurn)] =
      some (Except.ok ((witText1, StopReason.endTurn), [witText2, witText3], [])) :=
  (overflow_retries_model_call 2 false [witText1, witText2, witText3]
    [witText2, witText3] [] "overflow" (witText1, StopReason.endTurn) rfl).2

/-! ## Agent control loop: sub-agent transfer state machine -/

/-- Ceiling on consecutive transfers (agent.ts line 49). -/
def MAX_CONSECUTIVE_TRANSFERS : Nat := 8

/-- One tool-use turn of the scripted model, projected to what the transfer
machinery observes: the model ends the turn, runs ordinary tools only, or
calls transfer_to_agent with the given target. -/
inductive TurnAction where
  | endTurn
  | plainTools
  | requestTransfer (target : String)

/-- Root-managed runtime state for handoff orchestration
(agent.ts lines 169-171). -/
structure LoopState where
  activeAgent : String
  consecutiveTransfers : Nat
  pendingTransferTarget : Option String

/-- The transfer_to_agent callback together with the queueTransfer closure
of _buildRuntimeForActiveAgent (transfer-to-agent-tool.ts lines 23-35,
agent.ts lines 746-753): a target outside the allowed set throws inside the
tool, which executeTool converts to an error tool result; the guard throws
when the consecutive counter has reached the ceiling, again an error tool
result; otherwise the target is queued as the pending transfer.  Returns
the updated state and whether the call produced an error result. -/
def runTransferTool (allowedTargets : List String) (target : String)
    (st : LoopState) : LoopState × Bool :=
  if !(allowedTargets.contains target) then (st, true)
  else if st.consecutiveTransfers ≥ MAX_CONSECUTIVE_TRANSFERS then (st, true)
  else ({ st with pendingTransferTarget := some target }, false)

/-- Outcome of one iteration of the _stream loop. -/
inductive StepOutcome where
  | continueTurn (st : LoopState)
  | finished (st : LoopState)
  | fatal (message : String)

/-- The transfer check at the bottom of one _stream iteration (agent.ts
lines 382-417): consume the pending target; a target missing from the tree
is fatal to the turn; at the ceiling the counter resets and the loop
continues on the same active agent without transferring; otherwise the
transfer happens and the counter increments; with no pending target the
counter resets to zero. -/
def afterToolsTransferCheck (agentTree : List String) (st : LoopState) : StepOutcome :=
  match st.pendingTransferTarget with
  | some pendingTarget =>
    if !(agentTree.contains pendingTarget) then
      StepOutcome.fatal ("Agent " ++ pendingTarget ++ " not found in the agent tree")
    else if st.consecutiveTransfers ≥ MAX_CONSECUTIVE_TRANSFERS then
      StepOutcome.continueTurn
        { st with pendingTransferTarget := none, consecutiveTransfers := 0 }
    else
      StepOutcome.continueTurn
        { activeAgent := pendingTarget,
          consecutiveTransfers := st.consecutiveTransfers + 1,
          pendingTransferTarget := none }
  | none => StepOutcome.continueTurn { st with consecutiveTransfers := 0 }

/-- One iteration of the _stream loop (agent.ts lines 361-418) projected to
the transfer state machine: a stop reason other than toolUse returns; a
toolUse turn executes its tools — including a possible transfer_to_agent
call — and then runs the transfer check. -/
def stepTurn (agentTree : List String) (allowed : String → List String)
    (action : TurnAction) (st : LoopState) : StepOutcome :=
  match action with
  | TurnAction.endTurn => StepOutcome.finished st
  | TurnAction.plainTools => afterToolsTransferCheck agentTree st
  | TurnAction.requestTransfer target =>
    afterToolsTransferCheck agentTree (runTransferTool (allowed st.activeAgent) target st).1

/-- Result of running the loop over a scripted sequence of turns. -/
inductive RunResult where
  | outOfScript (st : LoopState)
  | finished (st : LoopState)
  | failed (message : String)

/-- The _stream loop over a scripted model: iterate stepTurn until the turn
finishes, a fatal error is thrown, or the script is exhausted. -/
def runTurns (agentTree : List String) (allowed : String → List String) :
    List TurnAction → LoopState → RunResult
  | [], st => RunResult.outOfScript st
  | action :: rest, st =>
    match stepTurn agentTree allowed action st with
    | StepOutcome.finished st2 => RunResult.finished st2
    | StepOutcome.fatal m => RunResult.failed m
    | StepOutcome.continueTurn st2 => runTurns agentTree allowed rest st2

theorem runTransferTool_counter (allowedTargets : List String) (target : String)
    (st : LoopState) :
    (runTransferTool allowedTargets target st).1.consecutiveTransfers =
      st.consecutiveTransfers := by
  unfold runTransferTool
  split
  · rfl
  · split
    · rfl
    · rfl

theorem afterToolsTransferCheck_counter_le (agentTree : List String) (st st2 : LoopState)
    (_hle : st.consecutiveTransfers ≤ MAX_CONSECUTIVE_TRANSFERS)
    (hstep : afterToolsTransferCheck agentTree st = StepOutcome.continueTurn st2) :
    st2.consecutiveTransfers ≤ MAX_CONSECUTIVE_TRANSFERS := by
  unfold afterToolsTransferCheck at hstep
  rcases hpend : st.pendingTransferTarget with _ | t <;> rw [hpend] at hstep
  · dsimp only at hstep
    cases hstep
    exact Nat.zero_le _
  · dsimp only at hstep
    split at hstep
    · cases hstep
    · split at hstep
      · cases hstep
        exact Nat.zero_le _
      · cases hstep
        rename_i hnot
        show st.consecutiveTransfers + 1 ≤ _
        omega

/-- C5: a transfer below the ceiling executes and increments the counter; at
exactly 8 consecutive transfers the 9th requested transfer is suppressed —
the counter resets to zero, the active agent is unchanged, and the turn
continues non-fatally; a turn completing without a transfer request also
resets the counter to zero; the counter can never exceed 8 across loop
steps; and a concrete run of 9 consecutive transfer requests performs 8
transfers, suppresses the 9th and finishes cleanly. -/
theorem transfer_ceiling (agentTree : List String) (allowed : String → List String)
    (st : LoopState) (target : String) :
    (st.consecutiveTransfers < MAX_CONSECUTIVE_TRANSFERS →
      st.pendingTransferTarget = none →
      (allowed st.activeAgent).contains target = true →
      agentTree.contains target = true →
      stepTurn agentTree allowed (TurnAction.requestTransfer target) st =
        StepOutcome.continueTurn
          { activeAgent := target,
            consecutiveTransfers := st.consecutiveTransfers + 1,
            pendingTransferTarget := none }) ∧
    (st.consecutiveTransfers = MAX_CONSECUTIVE_TRANSFERS →
      st.pendingTransferTarget = none →
      stepTurn agentTree allowed (TurnAction.requestTransfer target) st =
        StepOutcome.continueTurn
          { activeAgent := st.activeAgent, consecutiveTransfers := 0,
            pendingTransferTarget := none }) ∧
    (st.pendingTransferTarget = none →
      stepTurn agentTree allowed TurnAction.plainTools st =
        StepOutcome.continueTurn { st with consecutiveTransfers := 0 }) ∧
    (∀ action st2, st.consecutiveTransfers ≤ MAX_CONSECUTIVE_TRANSFERS →
      stepTurn agentTree allowed action st = StepOutcome.continueTurn st2 →
      st2.consecutiveTransfers ≤ MAX_CONSECUTIVE_TRANSFERS) ∧
    (runTurns ["rootA", "subB"] (fun _ => ["rootA", "subB"])
        (List.replicate 9 (TurnAction.requestTransfer "subB") ++ [TurnAction.endTurn])
        { activeAgent := "rootA", consecutiveTransfers := 0,
          pendingTransferTarget := none } =
      RunResult.finished
        { activeAgent := "subB", consecutiveTransfers := 0,
          pendingTransferTarget := none }) := by
  refine ⟨?_, ?_, ?_, ?_, ?_⟩
  · intro hlt hpend hallow htree
    have hnotge : ¬ st.consecutiveTransfers ≥ MAX_CONSECUTIVE_TRANSFERS := by omega
    have hmem : target ∈ allowed st.activeAgent := List.mem_of_elem_eq_true hallow
    have hmemTree : target ∈ agentTree := List.mem_of_elem_eq_true htree
    simp [stepTurn, runTransferTool, afterToolsTransferCheck, hmem, hmemTree, hnotge]
  · intro hceil hpend
    have hge : st.consecutiveTransfers ≥ MAX_CONSECUTIVE_TRANSFERS := by omega
    by_cases hallow : (allowed st.activeAgent).contains target = true
    · have hmem : target ∈ allowed st.activeAgent := List.mem_of_elem_eq_true hallow
      simp [stepTurn, runTransferTool, afterToolsTransferCheck, hmem, hge, hpend]
    · have hnmem : ¬ target ∈ allowed st.activeAgent := fun hm =>
        hallow (List.elem_eq_true_of_mem hm)
      simp [stepTurn, runTransferTool, afterToolsTransferCheck, hnmem, hpend]
  · intro hpend
    simp [stepTurn, afterToolsTransferCheck, hpend]
  · intro action st2 hle hstep
    cases action with
    | endTurn => simp [stepTurn] at hstep
    | plainTools =>
      unfold stepTurn at hstep
      exact afterToolsTransferCheck_counter_le agentTree st st2 hle hstep
    | requestTransfer target2 =>
      unfold stepTurn at hstep
      refine afterToolsTransferCheck_counter_le agentTree _ st2 ?_ hstep
      rw [runTransferTool_counter]
      exact hle
  · rfl

/-- Witness for C5: the ceiling conjunct applied at a concrete state with
counter 8 (the 9th request is suppressed) and the transfer conjunct applied
at counter 0 (an ordinary transfer executes). -/
theorem transfer_ceiling_witness :
    stepTurn ["a", "b"] (fun _ => ["b"]) (TurnAction.requestTransfer "b")
      { activeAgent := "a", consecutiveTransfers := 8, pendingTransferTarget := none } =
      StepOutcome.continueTurn
        { activeAgent := "a", consecutiveTransfers := 0, pendingTransferTarget := none } ∧
    stepTurn ["a", "b"] (fun _ => ["b"]) (TurnAction.requestTransfer "b")
      { activeAgent := "a", consecutiveTransfers := 0, pendingTransferTarget := none } =
      StepOutcome.continueTurn
        { activeAgent := "b", consecutiveTransfers := 1, pendingTransferTarget := none } :=
  ⟨(transfer_ceiling ["a", "b"] (fun _ => ["b"])
      { activeAgent := "a", consecutiveTransfers := 8, pendingTransferTarget := none }
      "b").2.1 rfl rfl,
   (transfer_ceiling ["a", "b"] (fun _ => ["b"])
      { activeAgent := "a", consecutiveTransfers := 0, pendingTransferTarget := none }
      "b").1 (by decide) rfl rfl rfl⟩

/-! ## Agent control loop: tool execution sub-procedure -/

/-- A tool use request as passed to executeTool (agent.ts lines 581-585):
name, correlation id and input (kept opaque). -/
structure ToolUse where
  name : String
  toolUseId : String
  input : String

/-- A tool result as built by executeTool: correlation id, status and
content, the fields of the ToolResultBlock constructor calls. -/
structure ToolResultData where
  toolUseId : String
  status : BStatus
  content : List ContentBlock

/-- Behavior of one tool invocation as observed by executeTool: the stream
returns a result, completes without one, or throws. -/
inductive ToolBehavior where
  | returns (r : ToolResultData)
  | returnsNothing
  | throws (message : String)

/-- A registered tool: its name and the behavior of its stream. -/
structure ToolDef where
  name : String
  behavior : ToolBehavior

/-- executeTool (agent.ts lines 574-648).  The registry find, the
tool-not-found synthesized error result, the try block converting a thrown
error into an error result and a missing result into an error result.  The
AfterToolCallEvent retry loop exits at once under the default hook set (the
sliding window manager registers no AfterToolCallEvent callback), so it is
projected away; the source quotes the tool name in the error texts.  The
definition is total: every failure becomes an error result rather than an
exception escaping the sub-procedure. -/
def executeTool (toolRegistry : List ToolDef) (tu : ToolUse) : ToolResultData :=
  match toolRegistry.find? (fun t => t.name == tu.name) with
  | none =>
    { toolUseId := tu.toolUseId, status := BStatus.error,
      content := [ContentBlock.textBlock ("Tool " ++ tu.name ++ " not found in registry")] }
  | some t =>
    match t.behavior with
    | ToolBehavior.returns r => r
    | ToolBehavior.returnsNothing =>
      { toolUseId := tu.toolUseId, status := BStatus.error,
        content := [ContentBlock.textBlock ("Tool " ++ tu.name ++ " did not return a result")] }
    | ToolBehavior.throws m =>
      { toolUseId := tu.toolUseId, status := BStatus.error,
        content := [ContentBlock.textBlock m] }

/-- executeTools (agent.ts lines 537-569): each tool use block is executed
sequentially and the results are assembled, in order, into one user role
message. -/
def executeToolsMessage (toolRegistry : List ToolDef) (toolUses : List ToolUse) : Message :=
  { role := Role.user,
    content := toolUses.map fun tu =>
      ContentBlock.toolResultBlock (executeTool toolRegistry tu).toolUseId
        (executeTool toolRegistry tu).status (executeTool toolRegistry tu).content }

/-- C6: each of the three failure kinds — tool not found in the registry,
tool threw, tool completed without a result — produces an error status tool
result bearing the correlation id of the tool use; the sub-procedure is
total, assembling exactly one result block per tool use block, so no
failure throws past it or terminates the turn. -/
theorem executeTool_failure_kinds (toolRegistry : List ToolDef) (tu : ToolUse) :
    (toolRegistry.find? (fun t => t.name == tu.name) = none →
      (executeTool toolRegistry tu).status = BStatus.error ∧
      (executeTool toolRegistry tu).toolUseId = tu.toolUseId) ∧
    (∀ t m, toolRegistry.find? (fun t2 => t2.name == tu.name) = some t →
      t.behavior = ToolBehavior.throws m →
      (executeTool toolRegistry tu).status = BStatus.error ∧
      (executeTool toolRegistry tu).toolUseId = tu.toolUseId) ∧
    (∀ t, toolRegistry.find? (fun t2 => t2.name == tu.name) = some t →
      t.behavior = ToolBehavior.returnsNothing →
      (executeTool toolRegistry tu).status = BStatus.error ∧
      (executeTool toolRegistry tu).toolUseId = tu.toolUseId) ∧
    (∀ toolUses, (executeToolsMessage toolRegistry toolUses).content.length =
      toolUses.length) := by
  refine ⟨?_, ?_, ?_, ?_⟩
  · intro hfind
    unfold executeTool
    rw [hfind]
    exact ⟨rfl, rfl⟩
  · intro t m hfind hbeh
    unfold executeTool
    rw [hfind]
    dsimp only
    rw [hbeh]
    exact ⟨rfl, rfl⟩
  · intro t hfind hbeh
    unfold executeTool
    rw [hfind]
    dsimp only
    rw [hbeh]
    exact ⟨rfl, rfl⟩
  · intro toolUses
    unfold executeToolsMessage
    exact List.length_map _ _

/-- Witness for C6: the three failure kinds at concrete registries — an
empty registry, a throwing tool and a tool returning nothing. -/
theorem executeTool_failure_kinds_witness :
    (executeTool [] ⟨"missing", "id1", ""⟩).status = BStatus.error ∧
    (executeTool [⟨"boom", ToolBehavior.throws "kaput"⟩] ⟨"boom", "id2", ""⟩).toolUseId =
      "id2" ∧
    (executeTool [⟨"silent", ToolBehavior.returnsNothing⟩] ⟨"silent", "id3", ""⟩).status =
      BStatus.error :=
  ⟨((executeTool_failure_kinds [] ⟨"missing", "id1", ""⟩).1 rfl).1,
   ((executeTool_failure_kinds [⟨"boom", ToolBehavior.throws "kaput"⟩]
      ⟨"boom", "id2", ""⟩).2.1 ⟨"boom", ToolBehavior.throws "kaput"⟩ "kaput" rfl rfl).2,
   ((executeTool_failure_kinds [⟨"silent", ToolBehavior.returnsNothing⟩]
      ⟨"silent", "id3", ""⟩).2.2.1 ⟨"silent", ToolBehavior.returnsNothing⟩ rfl rfl).1⟩

/-! ## Agent entry points: concurrency lock and invoke versus stream -/

/-- Outcome of _streamFromEntry (agent.ts lines 320-346): none models the
ConcurrentInvocationError thrown by acquireLock (lines 266-279) when the
isInvoking flag is already set; otherwise the run result together with the
lock flag after the call — the using declaration disposes the lock on every
exit path, including a thrown error (a failed run result). -/
def streamFromEntry (isInvoking : Bool) (agentTree : List String)
    (allowed : String → List String) (script : List TurnAction) (st : LoopState) :
    Option (RunResult × Bool) :=
  if isInvoking then none
  else some (runTurns agentTree allowed script st, false)

/-- C8: while a call is in flight (the lock flag set) a second call on the
same root agent fails immediately with the concurrent invocation error and
does not queue; the lock is released on every exit path — normal
completion, exhausted script, or turn failure — so after the first call
completes a subsequent call is not rejected by the lock. -/
theorem concurrent_invocation_guard (agentTree : List String)
    (allowed : String → List String) (script script2 : List TurnAction)
    (st st2 : LoopState) :
    streamFromEntry true agentTree allowed script st = none ∧
    (∀ r lockAfter,
      streamFromEntry false agentTree allowed script st = some (r, lockAfter) →
      lockAfter = false) ∧
    (∀ r lockAfter,
      streamFromEntry false agentTree allowed script st = some (r, lockAfter) →
      (streamFromEntry lockAfter agentTree allowed script2 st2).isSome = true) := by
  refine ⟨rfl, ?_, ?_⟩
  · intro r lockAfter h
    unfold streamFromEntry at h
    rw [if_neg (by simp)] at h
    cases h
    rfl
  · intro r lockAfter h
    unfold streamFromEntry at h
    rw [if_neg (by simp)] at h
    cases h
    rfl

/-- Witness for C8: after a completed first call the lock is back down and a
second call on the same agent succeeds. -/
theorem concurrent_invocation_guard_witness :
    (streamFromEntry false ["a"] (fun _ => []) [TurnAction.endTurn]
      { activeAgent := "a", consecutiveTransfers := 0,
        pendingTransferTarget := none }).isSome = true :=
  (concurrent_invocation_guard ["a"] (fun _ => []) [TurnAction.endTurn]
      [TurnAction.endTurn]
      { activeAgent := "a", consecutiveTransfers := 0, pendingTransferTarget := none }
      { activeAgent := "a", consecutiveTransfers := 0, pendingTransferTarget := none }).2.2
    (RunResult.finished
      { activeAgent := "a", consecutiveTransfers := 0, pendingTransferTarget := none })
    false rfl

/-- An asynchronous generator as a value: the events it yields and the value
it returns once exhausted. -/
structure Gen (ε ρ : Type) where
  events : List ε
  ret : ρ

/-- Lifecycle events yielded around the loop turns. -/
inductive AgentEvent where
  | beforeInvocationEvent
  | turnEvent (action : TurnAction)
  | afterInvocationEvent

/-- stream (agent.ts lines 310-318 together with _streamFromEntry): the
generator yields the lifecycle events around the scripted turns and returns
the final value of _streamFromEntry. -/
def stream (isInvoking : Bool) (agentTree : List String)
    (allowed : String → List String) (script : List TurnAction) (st : LoopState) :
    Gen AgentEvent (Option (RunResult × Bool)) :=
  { events := AgentEvent.beforeInvocationEvent ::
      (script.map AgentEvent.turnEvent ++ [AgentEvent.afterInvocationEvent]),
    ret := streamFromEntry isInvoking agentTree allowed script st }

/-- The drain loop of invoke (agent.ts lines 298-305): step the generator
until it reports done, ignoring every yielded event, and keep the returned
value. -/
def drainLoop {ε ρ : Type} : List ε → ρ → ρ
  | [], r => r
  | _ :: rest, r => drainLoop rest r

/-- invoke (agent.ts lines 296-305): construct the stream generator for the
same arguments and drain it — no other work happens. -/
def invoke (isInvoking : Bool) (agentTree : List String)
    (allowed : String → List String) (script : List TurnAction) (st : LoopState) :
    Option (RunResult × Bool) :=
  drainLoop (stream isInvoking agentTree allowed script st).events
    (stream isInvoking agentTree allowed script st).ret

theorem drainLoop_eq {ε ρ : Type} : ∀ (l : List ε) (r : ρ), drainLoop l r = r := by
  intro l
  induction l with
  | nil => intro r; rfl
  | cons e rest ih => intro r; exact ih r

/-- C9: invoke returns exactly the final result that stream returns once its
generator is exhausted, for every input, and performs no work beyond
draining that generator — the two entry points agree up to event
observation. -/
theorem invoke_eq_stream_ret (isInvoking : Bool) (agentTree : List String)
    (allowed : String → List String) (script : List TurnAction) (st : LoopState) :
    invoke isInvoking agentTree allowed script st =
      (stream isInvoking agentTree allowed script st).ret :=
  drainLoop_eq _ _

/-! ## Agent tree construction (_wireAgentTree, agent.ts lines 666-700) -/

/-- One agent in the construction arena: optional name, parent link and
children links — the tree fields of the Agent class.  Object identity is a
list index; the shared message array aliasing is not part of the tree shape
and is not modeled. -/
structure AgentNode where
  name : Option String
  parent : Option Nat
  children : List Nat

instance : Inhabited AgentNode := ⟨⟨none, none, []⟩⟩

/-- The agents constructed so far, in construction order. -/
abbrev Arena := List AgentNode

/-- Error text of the nesting checks (agent.ts lines 668 and 679). -/
def nestedErrorMessage : String :=
  "Nested sub-agents are not supported. Child agents cannot define subAgents."

/-- Error of the child-already-claimed check (agent.ts lines 682-686); the
source text also quotes the two agent names. -/
def alreadyHasParentMessage : String := "Agent already has a parent"

/-- Error of the sibling name check (agent.ts lines 708-710); the source
text also quotes the duplicate name. -/
def duplicateNameMessage : String := "Duplicate sub-agent name"

/-- Error of the name presence check (agent.ts line 717). -/
def nameRequiredMessage : String :=
  "Agent name is required when using subAgents or parentAgent"

/-- The child loop of _wireAgentTree (agent.ts lines 677-690): a child with
children of its own throws the nested error; a child already claimed by a
different parent throws; otherwise the child parent pointer is aligned to
the constructed agent. -/
def wireChildren (selfId : Nat) : Arena → List Nat → Except String Arena
  | arena, [] => Except.ok arena
  | arena, childId :: rest =>
    if !(arena.getD childId default).children.isEmpty then
      Except.error nestedErrorMessage
    else
      match (arena.getD childId default).parent with
      | some p =>
        if p = selfId then
          wireChildren selfId
            (arena.set childId { arena.getD childId default with parent := some selfId })
            rest
        else Except.error alreadyHasParentMessage
      | none =>
        wireChildren selfId
          (arena.set childId { arena.getD childId default with parent := some selfId })
          rest

/-- _validateSiblingNames (agent.ts lines 702-713): scans the children
collecting defined names into the seen set, reporting a duplicate. -/
def dupNamesAux (arena : Arena) : List String → List Nat → Bool
  | _, [] => false
  | seen, childId :: rest =>
    match (arena.getD childId default).name with
    | none => dupNamesAux arena seen rest
    | some n => if seen.contains n then true else dupNamesAux arena (n :: seen) rest

/-- Whether any of the listed agents lacks a name (the per-child
_assertNamePresent calls of agent.ts lines 696-698). -/
def anyNameMissing (arena : Arena) (ids : List Nat) : Bool :=
  ids.any fun c => ((arena.getD c default).name).isNone

/-- Agent construction restricted to the tree shape: the constructor stores
name, parentAgent and subAgents (agent.ts lines 186-188) and then runs
_wireAgentTree (lines 666-700): reject a config with both a parent and
children; push the new agent into the parent children when absent; wire the
children (nested check, claimed check, parent alignment); validate sibling
names; require names when the agent participates in a tree. -/
def construct (arena : Arena) (name : Option String) (parentAgent : Option Nat)
    (subAgents : List Nat) : Except String (Arena × Nat) :=
  let selfId := arena.length
  let arena1 := arena ++ [{ name := name, parent := parentAgent, children := subAgents }]
  if parentAgent.isSome && !subAgents.isEmpty then Except.error nestedErrorMessage
  else
    let arena2 :=
      match parentAgent with
      | some p =>
        if (arena1.getD p default).children.contains selfId then arena1
        else arena1.set p { arena1.getD p default with
          children := (arena1.getD p default).children ++ [selfId] }
      | none => arena1
    match wireChildren selfId arena2 subAgents with
    | Except.error e => Except.error e
    | Except.ok arena3 =>
      if dupNamesAux arena3 [] subAgents then Except.error duplicateNameMessage
      else if (!subAgents.isEmpty || parentAgent.isSome) &&
          (name.isNone || anyNameMissing arena3 subAgents) then
        Except.error nameRequiredMessage
      else Except.ok (arena3, selfId)

/-- Length of the parent chain starting at an index, fuelled climb — the
fuel of depthOf (the arena size) covers every acyclic chain. -/
def depthOfAux (arena : Arena) : Nat → Nat → Nat
  | 0, _ => 0
  | fuel + 1, idx =>
    match (arena.getD idx default).parent with
    | none => 1
    | some p => depthOfAux arena fuel p + 1

/-- Depth of an agent: one plus the number of ancestors above it. -/
def depthOf (arena : Arena) (idx : Nat) : Nat :=
  depthOfAux arena arena.length idx

/-- Arena after constructing the lone agent a. -/
def arenaA : Arena := [⟨some "a", none, []⟩]

/-- Arena after additionally constructing b with subAgents [a]. -/
def arenaAB : Arena := [⟨some "a", some 1, []⟩, ⟨some "b", none, [0]⟩]

/-- Arena after additionally constructing l with parentAgent a: the chain
b → a → l has depth three. -/
def arenaABL : Arena := [⟨some "a", some 1, [2]⟩, ⟨some "b", none, [0]⟩, ⟨some "l", some 0, []⟩]

/-- C10 counterexample: three constructor calls, none of which throws —
construct a, construct b with subAgents [a], then construct l passing
parentAgent a — produce a tree of depth three, refuting the claim that
every constructed agent tree has depth at most two. -/
theorem construct_depth_counterexample :
    construct [] (some "a") none [] = Except.ok (arenaA, 0) ∧
    construct arenaA (some "b") none [0] = Except.ok (arenaAB, 1) ∧
    construct arenaAB (some "l") (some 0) [] = Except.ok (arenaABL, 2) ∧
    depthOf arenaABL 2 = 3 :=
  ⟨rfl, rfl, rfl, rfl⟩

theorem getD_set_ne {α : Type} [Inhabited α] :
    ∀ (l : List α) (i j : Nat) (a : α), i ≠ j →
      (l.set i a).getD j default = l.getD j default := by
  intro l
  induction l with
  | nil => intro i j a _; rfl
  | cons hd tl ih =>
    intro i j a hne
    cases i with
    | zero =>
      cases j with
      | zero => exact absurd rfl hne
      | succ j2 => rfl
    | succ i2 =>
      cases j with
      | zero => rfl
      | succ j2 => exact ih i2 j2 a (by omega)

theorem getD_append_left {α : Type} [Inhabited α] :
    ∀ (l l2 : List α) (i : Nat), i < l.length →
      (l ++ l2).getD i default = l.getD i default := by
  intro l
  induction l with
  | nil => intro l2 i h; simp at h
  | cons hd tl ih =>
    intro l2 i h
    cases i with
    | zero => rfl
    | succ j => exact ih l2 j (by simpa using h)

theorem getD_of_le_length {α : Type} [Inhabited α] :
    ∀ (l : List α) (i : Nat), l.length ≤ i → l.getD i default = default := by
  intro l
  induction l with
  | nil => intro i _; cases i <;> rfl
  | cons hd tl ih =>
    intro i h
    cases i with
    | zero => simp at h
    | succ j => exact ih j (by simpa using h)

theorem wireChildren_error_of_nested (selfId : Nat) :
    ∀ (cs : List Nat) (arena : Arena) (c : Nat), c ∈ cs →
      (arena.getD c default).children ≠ [] →
      ∀ a2, wireChildren selfId arena cs ≠ Except.ok a2 := by
  intro cs
  induction cs with
  | nil => intro arena c hc; simp at hc
  | cons c0 rest ih =>
    intro arena c hc hchildren a2
    unfold wireChildren
    cases hemp : (arena.getD c0 default).children.isEmpty with
    | false => simp
    | true =>
      rw [if_neg (by simp)]
      have hnil0 : (arena.getD c0 default).children = [] := by
        rcases hch : (arena.getD c0 default).children with _ | ⟨x, xs⟩
        · rfl
        · rw [hch] at hemp
          exact absurd hemp (by simp [List.isEmpty])
      have hcne : c ≠ c0 := by
        intro heq
        rw [heq, hnil0] at hchildren
        exact hchildren rfl
      have hcr : c ∈ rest := by
        rcases List.mem_cons.mp hc with heq | hmem
        · exact absurd heq hcne
        · exact hmem
      have hpres : ((arena.set c0
          { arena.getD c0 default with parent := some selfId }).getD c default).children ≠ [] := by
        rw [getD_set_ne arena c0 c _ (fun h => hcne h.symm)]
        exact hchildren
      rcases hpar : (arena.getD c0 default).parent with _ | p
      · dsimp only
        exact ih _ c hcr hpres a2
      · dsimp only
        by_cases hps : p = selfId
        · rw [if_pos hps]
          exact ih _ c hcr hpres a2
        · rw [if_neg hps]
          simp

/-- C10 (amended): constructing an agent that has both a parentAgent and a
non-empty subAgents list throws the nested sub-agents error, and
constructing an agent whose subAgents contain a child that itself has
sub-agents never succeeds (it throws the nested error, or the
already-claimed error for an earlier ineligible child); the depth-two
conclusion does not hold for every construction sequence — passing
parentAgent pointing at an existing child extends the tree to depth three
without any throw. -/
theorem construct_rejects_nested (arena : Arena) (name : Option String)
    (p : Nat) (subAgents : List Nat) :
    (subAgents ≠ [] →
      construct arena name (some p) subAgents = Except.error nestedErrorMessage) ∧
    (∀ c, c ∈ subAgents → (arena.getD c default).children ≠ [] →
      ∀ r, construct arena name none subAgents ≠ Except.ok r) := by
  constructor
  · intro hne
    have hempty : subAgents.isEmpty = false := by
      cases subAgents with
      | nil => exact absurd rfl hne
      | cons c rest => rfl
    unfold construct
    rw [if_pos (by simp [hempty])]
  · intro c hc hchildren r
    have hlt : c < arena.length := by
      by_contra hge
      have hd : arena.getD c default = default := getD_of_le_length arena c (by omega)
      rw [hd] at hchildren
      exact hchildren rfl
    unfold construct
    rw [if_neg (by simp)]
    dsimp only
    have hpres : (((arena ++
        [{ name := name, parent := none, children := subAgents }]) : Arena).getD c
          default).children ≠ [] := by
      rw [getD_append_left arena _ c hlt]
      exact hchildren
    intro hok
    rcases hw : wireChildren arena.length
        (arena ++ [{ name := name, parent := none, children := subAgents }]) subAgents with
      e | a3
    · rw [hw] at hok
      exact absurd hok (by simp)
    · exact wireChildren_error_of_nested arena.length subAgents _ c hc hpres a3 hw

/-- Witness for C10: the parent-plus-children rejection and the
nested-child rejection at concrete arenas. -/
theorem construct_rejects_nested_witness :
    construct arenaA (some "x") (some 0) [0] = Except.error nestedErrorMessage ∧
    construct arenaAB (some "z") none [1] ≠ Except.ok (arenaABL, 2) :=
  ⟨(construct_rejects_nested arenaA (some "x") 0 [0]).1 (by simp),
   (construct_rejects_nested arenaAB (some "z") 0 [1]).2 1 (by simp)
     (by simp [arenaAB]) (arenaABL, 2)⟩
